import Mathlib

/-!
Verification of the OpenBPL event-pipeline core (Go) against its
natural-language specification. The Go sources are shallowly embedded:
strings become lists of characters, `time.Now().UnixNano()` becomes an
explicit `Nat` argument, Go maps become association lists (wrapped in
`Option` so that a nil map is distinguishable from an empty one), channels
and goroutines are modelled by explicit call logs and a static description
of the launch structure, and fallible operations return `Option`.
-/

namespace OpenBPL

/-- Go strings are modelled as lists of characters (`len` is the list
length; the pipeline's domains and keywords are ASCII). -/
abbrev Str := List Char

/-- Embed a Lean string literal as a character list. -/
def str (s : String) : Str := s.data

/-- Go `strings.HasPrefix(s, pre)`. -/
def goHasPre (s pre : Str) : Bool := pre.isPrefixOf s

/-- Go `strings.Contains(s, sub)`: `sub` occurs contiguously in `s`. -/
def goContains (s sub : Str) : Bool := s.tails.any (fun t => sub.isPrefixOf t)

/-- Go `strings.ToLower` restricted to ASCII (certstream keywords and
domains are ASCII): lower-case each character. -/
def goToLower (s : Str) : Str := s.map Char.toLower

/-! ### Decimal printing, the model of `fmt.Sprintf("%d", n)`

`MemoryStorage` generates record ids with `fmt.Sprintf("event_%d_%d", …)`;
to reason about their uniqueness we embed decimal printing and prove it
injective via the evaluation map `strVal`. -/

/-- The character printed for one decimal digit. -/
def digitChar (d : Nat) : Char :=
  if d = 0 then '0' else if d = 1 then '1' else if d = 2 then '2'
  else if d = 3 then '3' else if d = 4 then '4' else if d = 5 then '5'
  else if d = 6 then '6' else if d = 7 then '7' else if d = 8 then '8' else '9'

/-- Numeric value of a decimal digit character. -/
def charDigit (c : Char) : Nat :=
  if c = '0' then 0 else if c = '1' then 1 else if c = '2' then 2
  else if c = '3' then 3 else if c = '4' then 4 else if c = '5' then 5
  else if c = '6' then 6 else if c = '7' then 7 else if c = '8' then 8 else 9

/-- Decimal representation of a natural number, as `%d` prints it. -/
def natStr (n : Nat) : Str :=
  if _h : n < 10 then [digitChar n]
  else natStr (n / 10) ++ [digitChar (n % 10)]
decreasing_by exact Nat.div_lt_self (by omega) (by omega)

/-- Evaluate a digit string back to its numeric value. -/
def strVal (s : Str) : Nat := s.foldl (fun acc c => acc * 10 + charDigit c) 0

theorem charDigit_digitChar {d : Nat} (h : d < 10) : charDigit (digitChar d) = d := by
  interval_cases d <;> rfl

theorem digitChar_ne_underscore (d : Nat) : digitChar d ≠ '_' := by
  unfold digitChar
  repeat' split
  all_goals decide

theorem strVal_natStr (n : Nat) : strVal (natStr n) = n := by
  induction n using Nat.strong_induction_on with
  | _ n ih =>
    rw [natStr]
    split
    · next h =>
      simp [strVal, charDigit_digitChar h]
    · next h =>
      have hd : n / 10 < n := Nat.div_lt_self (by omega) (by omega)
      have hv := ih (n / 10) hd
      simp only [strVal, List.foldl_append] at *
      simp [hv, charDigit_digitChar (Nat.mod_lt n (by omega))]
      omega

theorem natStr_inj {a b : Nat} (h : natStr a = natStr b) : a = b := by
  have := congrArg strVal h
  rwa [strVal_natStr, strVal_natStr] at this

theorem natStr_no_underscore (n : Nat) : ∀ c ∈ natStr n, c ≠ '_' := by
  induction n using Nat.strong_induction_on with
  | _ n ih =>
    rw [natStr]
    split
    · intro c hc
      simp only [List.mem_singleton] at hc
      subst hc
      exact digitChar_ne_underscore n
    · next h =>
      intro c hc
      rcases List.mem_append.mp hc with h1 | h2
      · exact ih (n / 10) (Nat.div_lt_self (by omega) (by omega)) c h1
      · simp only [List.mem_singleton] at h2
        subst h2
        exact digitChar_ne_underscore (n % 10)

/-- Splitting at the first underscore is unambiguous when neither prefix
contains one. -/
theorem underscore_split {a b x y : Str} (ha : ∀ c ∈ a, c ≠ '_')
    (hb : ∀ c ∈ b, c ≠ '_') (h : a ++ '_' :: x = b ++ '_' :: y) :
    a = b ∧ x = y := by
  induction a generalizing b with
  | nil =>
    cases b with
    | nil => simpa using h
    | cons d b' =>
      exfalso
      simp only [List.nil_append, List.cons_append, List.cons.injEq] at h
      exact hb d (by simp) h.1.symm
  | cons c a' ih =>
    cases b with
    | nil =>
      exfalso
      simp only [List.nil_append, List.cons_append, List.cons.injEq] at h
      exact ha c (by simp) h.1
    | cons d b' =>
      simp only [List.cons_append, List.cons.injEq] at h
      obtain ⟨rfl, h2⟩ := h
      have := ih (fun e he => ha e (by simp [he])) (fun e he => hb e (by simp [he])) h2
      exact ⟨by rw [this.1], this.2⟩

/-! ### Data model (pkg/core/interfaces.go)

`time.Time` values are modelled as `Nat` nanosecond counts, the open-ended
`map[string]interface{}` data/metadata fields as association lists of
strings, and `float64 Confidence` as an inert `Int` (no claim computes
with it). -/

/-- `core.Event`: one monitoring event. -/
structure Event where
  id : Str
  source : Str
  type : Str
  domain : Str
  timestamp : Nat
  data : List (Str × Str)
  metadata : List (Str × Str)
deriving DecidableEq, Repr

/-- `core.DetectionResult`: the outcome of one detector on one event. -/
structure DetectionResult where
  id : Str
  eventID : Str
  domain : Str
  isThreat : Bool
  confidence : Int
  brand : Str
  rule : Str
  detectedAt : Nat
  metadata : List (Str × Str)
deriving DecidableEq, Repr

/-! ### MemoryStorage (pkg/core/storage.go)

A Go map is an association list wrapped in `Option`: `none` is a nil map
(`Close` sets the index maps to nil); assigning into a nil map panics,
which the save operations surface as `none`. A nil slice and an empty
slice behave alike under `append`/`len`/`range`, so slices are plain
lists. -/

/-- Go map assignment `m[k] = v`: replace the binding if the key is
present, otherwise add it. -/
def mapSet (m : List (Str × Nat)) (k : Str) (v : Nat) : List (Str × Nat) :=
  match m with
  | [] => [(k, v)]
  | (k', v') :: rest => if k' = k then (k, v) :: rest else (k', v') :: mapSet rest k v

/-- `core.MemoryStorage`. -/
structure MemoryStorage where
  events : List Event
  detections : List DetectionResult
  eventIndex : Option (List (Str × Nat))
  detectionIndex : Option (List (Str × Nat))
deriving DecidableEq, Repr

/-- `core.NewMemoryStorage`. -/
def NewMemoryStorage : MemoryStorage :=
  { events := [], detections := [], eventIndex := some [], detectionIndex := some [] }

/-- Id generated by `SaveEvent` for an event saved with an empty id:
`fmt.Sprintf("event_%d_%d", len(m.events), time.Now().UnixNano())`. -/
def genEventId (n now : Nat) : Str := str "event_" ++ (natStr n ++ '_' :: natStr now)

/-- Id generated by `SaveDetection` for a result saved with an empty id. -/
def genDetectionId (n now : Nat) : Str :=
  str "detection_" ++ (natStr n ++ '_' :: natStr now)

/-- `MemoryStorage.SaveEvent` (the event is received by value; `now` is
`time.Now().UnixNano()`). The returned error is always nil when the call
returns; `none` models the panic of assigning into a nil index map. -/
def MemoryStorage.SaveEvent (m : MemoryStorage) (event : Event) (now : Nat) :
    Option MemoryStorage :=
  let event := if event.id = [] then { event with id := genEventId m.events.length now }
               else event
  let index := m.events.length
  match m.eventIndex with
  | none => none
  | some idx =>
      some { m with events := m.events ++ [event],
                    eventIndex := some (mapSet idx event.id index) }

/-- `MemoryStorage.SaveDetection`, the detection-side twin of `SaveEvent`. -/
def MemoryStorage.SaveDetection (m : MemoryStorage) (result : DetectionResult)
    (now : Nat) : Option MemoryStorage :=
  let result := if result.id = []
                then { result with id := genDetectionId m.detections.length now }
                else result
  let index := m.detections.length
  match m.detectionIndex with
  | none => none
  | some idx =>
      some { m with detections := m.detections ++ [result],
                    detectionIndex := some (mapSet idx result.id index) }

/-- `core.matchesFilters`: the switch recognizes the keys "source", "type"
and "domain"; any mismatch returns false, an unrecognized key is skipped.
Filter values are strings (the only value type the claims exercise; a
non-string `interface{}` value never equals a string field). -/
def matchesFilters (event : Event) : List (Str × Str) → Bool
  | [] => true
  | (key, value) :: rest =>
    if key = str "source" then
      if event.source ≠ value then false else matchesFilters event rest
    else if key = str "type" then
      if event.type ≠ value then false else matchesFilters event rest
    else if key = str "domain" then
      if event.domain ≠ value then false else matchesFilters event rest
    else matchesFilters event rest

/-- `core.matchesDetectionFilters` for the keys "domain", "brand", "rule"
(the "is_threat" arm compares a boolean value and is omitted along with
boolean filter values, which no claim exercises). -/
def matchesDetectionFilters (detection : DetectionResult) : List (Str × Str) → Bool
  | [] => true
  | (key, value) :: rest =>
    if key = str "domain" then
      if detection.domain ≠ value then false else matchesDetectionFilters detection rest
    else if key = str "brand" then
      if detection.brand ≠ value then false else matchesDetectionFilters detection rest
    else if key = str "rule" then
      if detection.rule ≠ value then false else matchesDetectionFilters detection rest
    else matchesDetectionFilters detection rest

/-- `MemoryStorage.GetEvents`: the second component is the returned error,
nil on every path. -/
def MemoryStorage.GetEvents (m : MemoryStorage) (filters : List (Str × Str)) :
    List Event × Option Str :=
  if filters.length = 0 then (m.events, none)
  else (m.events.filter (fun event => matchesFilters event filters), none)

/-- `MemoryStorage.GetDetections`. -/
def MemoryStorage.GetDetections (m : MemoryStorage) (filters : List (Str × Str)) :
    List DetectionResult × Option Str :=
  if filters.length = 0 then (m.detections, none)
  else (m.detections.filter (fun d => matchesDetectionFilters d filters), none)

/-- `MemoryStorage.Close`: clears both slices (nil slice ≈ `[]`) and sets
both index maps to nil; returns a nil error. -/
def MemoryStorage.Close (_m : MemoryStorage) : MemoryStorage × Option Str :=
  ({ events := [], detections := [], eventIndex := none, detectionIndex := none }, none)

/-- Fold a sequence of `SaveEvent` calls, each with its `UnixNano` stamp;
`none` as soon as one call panics. -/
def saveAll (m : MemoryStorage) : List (Event × Nat) → Option MemoryStorage
  | [] => some m
  | (ev, now) :: rest =>
    match m.SaveEvent ev now with
    | none => none
    | some m' => saveAll m' rest

/-! ### CertstreamSource (pkg/core/certstream.go) -/

/-- `core.CertstreamSource`. -/
structure CertstreamSource where
  URL : Str
  Keywords : List Str
deriving DecidableEq, Repr

/-- The relevant fields of a decoded `core.CertstreamEntry`. -/
structure CertstreamEntry where
  messageType : Str
  updateType : Str
  subjectCN : Str
  subjectAltName : Str
deriving DecidableEq, Repr

/-- `CertstreamSource.shouldProcess`: reject wildcard domains and domains
shorter than 4 characters, then accept when some configured keyword (lower-
cased) occurs in the domain. -/
def CertstreamSource.shouldProcess (s : CertstreamSource) (domain : Str) : Bool :=
  if goHasPre domain (str "*.") then false
  else if domain.length < 4 then false
  else s.Keywords.any (fun keyword => goContains domain (goToLower keyword))

/-- `CertstreamSource.getMatchedKeywords`: the configured keywords (in
configured order) whose lower-casing occurs in the lower-cased domain. -/
def CertstreamSource.getMatchedKeywords (s : CertstreamSource) (domain : Str) :
    List Str :=
  let d := goToLower domain
  s.Keywords.filter (fun keyword => goContains d (goToLower keyword))

/-! #### The `Start` reconnect loop

`Start` is an unbounded loop; one iteration is decided by three inputs read
from the environment: whether the cancellation signal was already observed
at the top of the loop, the result of `connect` (`none` = returned nil,
which `connect` does only on cancellation; `some e` = connection or read
error), and whether cancellation fired during the reconnect wait. -/

/-- What one iteration of the `Start` loop does. -/
inductive StartStep where
  /-- `Start` returns nil. -/
  | exit : StartStep
  /-- Sleep `delaySeconds` (the `time.After` arm), then loop. -/
  | retryAfterDelay (delaySeconds : Nat) : StartStep
  /-- `connect` returned nil; loop straight back to the `select`. -/
  | loopAgain : StartStep
deriving DecidableEq, Repr

/-- The environment inputs consumed by one iteration of `Start`. -/
structure StartIterInput where
  ctxDone : Bool
  connectResult : Option Str
  ctxDoneDuringWait : Bool
deriving DecidableEq, Repr

/-- One iteration of `CertstreamSource.Start`: `select` on the cancellation
signal, otherwise `connect`; on a connect/stream error, `select` between
cancellation and a 5-second timer before retrying. -/
def CertstreamSource.startIteration (input : StartIterInput) : StartStep :=
  if input.ctxDone then .exit
  else
    match input.connectResult with
    | none => .loopAgain
    | some _ => if input.ctxDoneDuringWait then .exit else .retryAfterDelay 5

/-- Run the `Start` loop over a finite window of environment inputs:
`true` iff `Start` has returned within the window. -/
def CertstreamSource.startReturnedWithin : List StartIterInput → Bool
  | [] => false
  | input :: rest =>
    match CertstreamSource.startIteration input with
    | .exit => true
    | _ => CertstreamSource.startReturnedWithin rest

/-! ### Engine (pkg/core/engine.go)

The engine calls its stages and its storage through interfaces; a stage's
behaviour on one input is modelled as a function giving the interface
call's outcome. Calls into the storage interface are recorded in call logs
paired with the error the storage answered (`StorageBehavior` chooses that
answer); the engine only logs a non-nil answer. -/

/-- `config.Config` as the engine reads it: the global dry-run flag. -/
structure EngineConfig where
  dryRun : Bool
deriving DecidableEq, Repr

/-- `core.Statistics` (the counters; the RW-mutex and start time play no
part in the counter claims). -/
structure Statistics where
  certsProcessed : Nat
  threatsFound : Nat
  actionsLive : Nat
  actionsDryRun : Nat
deriving DecidableEq, Repr

/-- Behaviour of an `Enricher.Enrich(ctx, *event)` call: the event as the
enricher leaves it (possibly partially enriched) and the returned error. -/
abbrev EnricherBehavior := Event → Event × Option Str

/-- Behaviour of a `Detector.Detect(ctx, *event)` call: results and error. -/
abbrev DetectorBehavior := Event → List DetectionResult × Option Str

/-- Behaviour of an `Enforcer.Enforce(ctx, result, dryRun)` call: the
returned error. -/
abbrev EnforcerBehavior := DetectionResult → Bool → Option Str

/-- The enabled stage instances held by the engine. -/
structure EngineStages where
  enrichers : List EnricherBehavior
  detectors : List DetectorBehavior
  enforcers : List EnforcerBehavior

/-- The error answers of the storage the engine talks to. -/
structure StorageBehavior where
  saveEventErr : Event → Option Str
  saveDetectionErr : DetectionResult → Option Str

/-- Observable engine state: the counters plus the log of every storage
save call (with the storage's error answer) and of every enforce call. -/
structure EngineState where
  stats : Statistics
  eventSaveCalls : List (Event × Option Str)
  detectionSaveCalls : List (DetectionResult × Option Str)
  enforceCalls : List (DetectionResult × Bool)
deriving DecidableEq, Repr

/-- One pass of the enforcement loop body of `processDetectionResult`:
invoke the enforcer with the global dry-run flag; a failing call is logged
and skipped (`continue`); after a successful call exactly one of the two
action counters is incremented, chosen by the flag. -/
def Engine.enforceStep (cfg : EngineConfig) (result : DetectionResult)
    (st : EngineState) (enforcer : EnforcerBehavior) : EngineState :=
  let st := { st with enforceCalls := st.enforceCalls ++ [(result, cfg.dryRun)] }
  match enforcer result cfg.dryRun with
  | some _ => st
  | none =>
    if cfg.dryRun then
      { st with stats := { st.stats with actionsDryRun := st.stats.actionsDryRun + 1 } }
    else
      { st with stats := { st.stats with actionsLive := st.stats.actionsLive + 1 } }

/-- The enforcement loop of `Engine.processDetectionResult`: every enabled
enforcer is invoked in configured order. -/
def Engine.runEnforcers (cfg : EngineConfig) (enforcers : List EnforcerBehavior)
    (result : DetectionResult) (st : EngineState) : EngineState :=
  enforcers.foldl (Engine.enforceStep cfg result) st

/-- `Engine.processDetectionResult`: save the result (error only logged),
bump the threat counter iff the result is a threat, stop for non-threats,
otherwise run the enforcement loop. The second component is the function's
return value, nil on every path. -/
def Engine.processDetectionResult (cfg : EngineConfig)
    (enforcers : List EnforcerBehavior) (sb : StorageBehavior)
    (st : EngineState) (result : DetectionResult) : EngineState × Option Str :=
  let st := { st with
    detectionSaveCalls := st.detectionSaveCalls ++ [(result, sb.saveDetectionErr result)] }
  let st := if result.isThreat then
      { st with stats := { st.stats with threatsFound := st.stats.threatsFound + 1 } }
    else st
  if !result.isThreat then (st, none)
  else (Engine.runEnforcers cfg enforcers result st, none)

/-- The enrichment loop of `Engine.processEvent`: each enricher receives
the event as the previous ones (including failing ones) left it; a failing
enricher is logged and the loop continues. -/
def Engine.enrichEvent (enrichers : List EnricherBehavior) (event : Event) : Event :=
  enrichers.foldl (fun ev enricher => (enricher ev).1) event

/-- The detection loop of `Engine.processEvent`: results of the detectors
in order; a detector answering a non-nil error contributes nothing
(`continue` drops its results). -/
def Engine.detectAll (detectors : List DetectorBehavior) (event : Event) :
    List DetectionResult :=
  (detectors.map (fun detector =>
    match detector event with
    | (_, some _) => []
    | (results, none) => results)).flatten

/-- `Engine.processEvent`: bump the processed counter, save the incoming
event (by value, before enrichment; a save error is only logged), enrich,
detect, then process every collected result. Returns nil on every path. -/
def Engine.processEvent (cfg : EngineConfig) (stages : EngineStages)
    (sb : StorageBehavior) (st : EngineState) (event : Event) :
    EngineState × Option Str :=
  let st := { st with stats := { st.stats with certsProcessed := st.stats.certsProcessed + 1 } }
  let st := { st with eventSaveCalls := st.eventSaveCalls ++ [(event, sb.saveEventErr event)] }
  let enriched := Engine.enrichEvent stages.enrichers event
  let allResults := Engine.detectAll stages.detectors enriched
  let st := allResults.foldl
    (fun st result => (Engine.processDetectionResult cfg stages.enforcers sb st result).1) st
  (st, none)

/-! #### The `Run` launch structure

`Engine.Run` launches `reportStats` with a bare `go` statement, then one
goroutine per source and the `processEvents` consumer, each bracketed by
`wg.Add(1)`/`wg.Done()`; after cancellation it closes the queue and blocks
in `wg.Wait()`, so it returns exactly when every worker that is in the
wait group has exited. -/

/-- The workers `Engine.Run` launches. -/
inductive WorkerId where
  | sourceWorker (i : Nat) : WorkerId
  | pipelineConsumer : WorkerId
  | statsReporter : WorkerId
deriving DecidableEq, Repr

/-- One launched worker: whether `Run`'s `wg.Wait()` waits for it, and
whether it reads from or writes to the event queue. -/
structure LaunchedWorker where
  id : WorkerId
  inWaitGroup : Bool
  usesEventQueue : Bool
deriving DecidableEq, Repr

/-- The workers launched by `Engine.Run`, in launch order: the statistics
reporter (bare `go`, no `wg.Add`), one queue-writing worker per source
(`wg.Add(1)`), and the queue-reading pipeline consumer (`wg.Add(1)`). -/
def Engine.runWorkers (numSources : Nat) : List LaunchedWorker :=
  { id := .statsReporter, inWaitGroup := false, usesEventQueue := false } ::
  ((List.range numSources).map
    (fun i => { id := .sourceWorker i, inWaitGroup := true, usesEventQueue := true })) ++
  [{ id := .pipelineConsumer, inWaitGroup := true, usesEventQueue := true }]

/-! ### Concrete fixtures used by witnesses and counterexamples -/

/-- An event with every field empty (in particular an empty id). -/
def evZero : Event :=
  { id := [], source := [], type := [], domain := [], timestamp := 0,
    data := [], metadata := [] }

/-- A detection result flagged as a threat. -/
def resThreat : DetectionResult :=
  { id := [], eventID := [], domain := [], isThreat := true, confidence := 0,
    brand := [], rule := [], detectedAt := 0, metadata := [] }

/-- A detection result that is not a threat. -/
def resBenign : DetectionResult := { resThreat with isThreat := false }

/-- A storage that answers nil to every save. -/
def sbNil : StorageBehavior :=
  { saveEventErr := fun _ => none, saveDetectionErr := fun _ => none }

/-- The zero engine state. -/
def stZero : EngineState :=
  { stats := ⟨0, 0, 0, 0⟩, eventSaveCalls := [], detectionSaveCalls := [],
    enforceCalls := [] }

/-- An event whose caller-supplied id is the non-empty string "dup". -/
def dupEvent : Event := { evZero with id := str "dup" }

/-! ### Supporting lemmas -/

/-- The generated event id starts with "event_", so it is never empty. -/
theorem genEventId_ne_nil (n now : Nat) : genEventId n now ≠ [] := by
  intro hcon
  have hlen := congrArg List.length hcon
  rw [genEventId] at hlen
  simp [List.length_append, str] at hlen

/-- Generated event ids agree only when the pre-append lengths agree: the
decimal run before the underscore determines the length component. -/
theorem genEventId_inj {a b ta tb : Nat} (h : genEventId a ta = genEventId b tb) :
    a = b := by
  unfold genEventId at h
  have h2 := List.append_cancel_left h
  have h3 := underscore_split (natStr_no_underscore a) (natStr_no_underscore b) h2
  exact natStr_inj h3.1

/-- Spec-side reading of one event filter clause: each recognized key
constrains its field; an unrecognized key constrains nothing. -/
def filterClauseHolds (event : Event) (kv : Str × Str) : Prop :=
  (kv.1 = str "source" → event.source = kv.2) ∧
  (kv.1 = str "type" → event.type = kv.2) ∧
  (kv.1 = str "domain" → event.domain = kv.2)

/-- `matchesFilters` is the conjunction of its recognized clauses. -/
theorem matchesFilters_iff (event : Event) (filters : List (Str × Str)) :
    matchesFilters event filters = true ↔ ∀ kv ∈ filters, filterClauseHolds event kv := by
  induction filters with
  | nil => simp [matchesFilters]
  | cons kv rest ih =>
    obtain ⟨k, v⟩ := kv
    have hst : (str "source" : Str) ≠ str "type" := by decide
    have hsd : (str "source" : Str) ≠ str "domain" := by decide
    have htd : (str "type" : Str) ≠ str "domain" := by decide
    simp only [matchesFilters, List.mem_cons, forall_eq_or_imp]
    by_cases h1 : k = str "source"
    · subst h1
      by_cases h2 : event.source = v
      · simp [h2, ih, filterClauseHolds, hst, hsd]
      · simp [h2, filterClauseHolds]
    · by_cases h3 : k = str "type"
      · subst h3
        by_cases h2 : event.type = v
        · simp [h2, ih, filterClauseHolds, hst.symm, htd]
        · simp [h2, filterClauseHolds, hst.symm]
      · by_cases h4 : k = str "domain"
        · subst h4
          by_cases h2 : event.domain = v
          · simp [h2, ih, filterClauseHolds, hsd.symm, htd.symm]
          · simp [h2, filterClauseHolds, hsd.symm, htd.symm]
        · simp [h1, h3, h4, ih, filterClauseHolds]

/-! ### The claims -/

/-- C3: `shouldProcess` rejects wildcard domains and domains shorter than
4 characters, and otherwise accepts exactly when some configured keyword
occurs case-insensitively in the (lower-cased, as `extractDomains`
produces them) candidate domain; the three concrete examples of the spec,
including the matched-keyword list. -/
theorem shouldProcess_spec (s : CertstreamSource) (domain : Str)
    (hlower : goToLower domain = domain) :
    (goHasPre domain (str "*.") = true ∨ domain.length < 4 →
      s.shouldProcess domain = false) ∧
    (goHasPre domain (str "*.") = false → 4 ≤ domain.length →
      (s.shouldProcess domain = true ↔
        ∃ kw ∈ s.Keywords, goContains (goToLower domain) (goToLower kw) = true)) ∧
    CertstreamSource.shouldProcess ⟨[], [str "paypal"]⟩ (str "*.paypal-secure.com")
      = false ∧
    CertstreamSource.shouldProcess ⟨[], [str "paypal"]⟩ (str "paypal-secure.com")
      = true ∧
    CertstreamSource.getMatchedKeywords ⟨[], [str "paypal"]⟩ (str "paypal-secure.com")
      = [str "paypal"] ∧
    (∀ kws : List Str, CertstreamSource.shouldProcess ⟨[], kws⟩ (str "abc") = false) := by
  refine ⟨?_, ?_, by decide, by decide, by decide, ?_⟩
  · intro h
    unfold CertstreamSource.shouldProcess
    rcases h with hw | hlen
    · simp [hw]
    · by_cases hwc : goHasPre domain (str "*.") <;> simp [hwc, hlen]
  · intro hw hlen
    unfold CertstreamSource.shouldProcess
    have hnl : ¬ (domain.length < 4) := by omega
    rw [hlower]
    simp [hw, hnl, List.any_eq_true]
  · intro kws
    unfold CertstreamSource.shouldProcess
    have h1 : goHasPre (str "abc") (str "*.") = false := by decide
    have h2 : (str "abc").length < 4 := by decide
    simp [h1, h2]

/-- C3 witness: the lower-case hypothesis and the acceptance conclusion at
the spec's concrete example. -/
theorem shouldProcess_spec_witness :
    goToLower (str "paypal-secure.com") = str "paypal-secure.com" ∧
    CertstreamSource.shouldProcess ⟨[], [str "paypal"]⟩ (str "paypal-secure.com")
      = true :=
  ⟨by decide,
   (shouldProcess_spec ⟨[], [str "paypal"]⟩ (str "paypal-secure.com")
     (by decide)).2.2.2.1⟩

/-- C6: `GetEvents` with the single filter {"domain": d} returns exactly
the stored events whose domain equals d in insertion order, an empty
filter returns the whole collection (with a nil error), and a multi-key
filter is the conjunction of its recognized clauses. -/
theorem getEvents_filter_spec (m : MemoryStorage) (d : Str)
    (filters : List (Str × Str)) (event : Event) :
    (m.GetEvents [(str "domain", d)]).1
      = m.events.filter (fun e => decide (e.domain = d)) ∧
    m.GetEvents [] = (m.events, none) ∧
    (matchesFilters event filters = true ↔
      ∀ kv ∈ filters, filterClauseHolds event kv) := by
  refine ⟨?_, rfl, matchesFilters_iff event filters⟩
  unfold MemoryStorage.GetEvents
  rw [if_neg (by simp)]
  refine List.filter_congr ?_
  intro e _
  simp only [matchesFilters]
  rw [if_neg (by decide), if_neg (by decide)]
  by_cases h : e.domain = d <;> simp [h, matchesFilters]

/-- C8: one iteration of the certstream `Start` loop exits only on
cancellation, always exits on cancellation, retries after a fixed 5-second
delay on error with no backoff growth, and a window of failing iterations
without cancellation never makes `Start` return (no retry ceiling). -/
theorem start_retry_spec (inputs : List StartIterInput) (input : StartIterInput)
    (d : Nat) :
    (CertstreamSource.startIteration input = .exit →
      input.ctxDone = true ∨ input.ctxDoneDuringWait = true) ∧
    (input.ctxDone = true → CertstreamSource.startIteration input = .exit) ∧
    (CertstreamSource.startIteration input = .retryAfterDelay d → d = 5) ∧
    ((∀ i ∈ inputs, i.ctxDone = false ∧ i.ctxDoneDuringWait = false) →
      CertstreamSource.startReturnedWithin inputs = false) := by
  refine ⟨?_, ?_, ?_, ?_⟩
  · intro h
    unfold CertstreamSource.startIteration at h
    by_cases h1 : input.ctxDone
    · exact Or.inl h1
    · simp [h1] at h
      rcases hc : input.connectResult with _ | e <;> rw [hc] at h
      · simp at h
      · by_cases h2 : input.ctxDoneDuringWait
        · exact Or.inr h2
        · simp [h2] at h
  · intro h
    unfold CertstreamSource.startIteration
    simp [h]
  · intro h
    unfold CertstreamSource.startIteration at h
    by_cases h1 : input.ctxDone
    · simp [h1] at h
    · simp [h1] at h
      rcases hc : input.connectResult with _ | e <;> rw [hc] at h
      · simp at h
      · by_cases h2 : input.ctxDoneDuringWait <;> simp [h2] at h
        exact h.symm
  · intro hall
    induction inputs with
    | nil => rfl
    | cons i rest ih =>
      have hi := hall i (by simp)
      unfold CertstreamSource.startReturnedWithin CertstreamSource.startIteration
      rcases hc : i.connectResult with _ | e <;>
        simp [hi.1, hi.2, hc] <;>
        exact ih (fun j hj => hall j (by simp [hj]))

/-- C8 witness: an iteration that sees cancellation exits, and a window of
three failing iterations without cancellation does not make `Start`
return. -/
theorem start_retry_spec_witness :
    CertstreamSource.startIteration ⟨true, none, false⟩ = .exit ∧
    CertstreamSource.startReturnedWithin
      (List.replicate 3 ⟨false, some (str "eof"), false⟩) = false :=
  ⟨(start_retry_spec [] ⟨true, none, false⟩ 0).2.1 rfl,
   (start_retry_spec (List.replicate 3 ⟨false, some (str "eof"), false⟩)
     ⟨true, none, false⟩ 0).2.2.2 (by decide)⟩

/-- C10: after `Close` both getters succeed with an empty collection and a
nil error, while both save operations hit the nil index map and panic. -/
theorem close_terminal_spec (m : MemoryStorage) (filters : List (Str × Str))
    (ev : Event) (r : DetectionResult) (now : Nat) :
    (m.Close).1.GetEvents filters = ([], none) ∧
    (m.Close).1.GetDetections filters = ([], none) ∧
    (m.Close).1.SaveEvent ev now = none ∧
    (m.Close).1.SaveDetection r now = none := by
  refine ⟨?_, ?_, rfl, rfl⟩ <;>
    · simp only [MemoryStorage.Close, MemoryStorage.GetEvents,
        MemoryStorage.GetDetections]
      split <;> rfl

/-- The ids `SaveEvent` generates for a run of saves with empty supplied
ids, starting at pre-append length `k`. -/
def genIds (k : Nat) : List (Event × Nat) → List Str
  | [] => []
  | (_, now) :: rest => genEventId k now :: genIds (k + 1) rest

theorem mem_genIds {s : Str} {k : Nat} {inputs : List (Event × Nat)}
    (h : s ∈ genIds k inputs) : ∃ j now, k ≤ j ∧ s = genEventId j now := by
  induction inputs generalizing k with
  | nil => simp [genIds] at h
  | cons p rest ih =>
    obtain ⟨q, now⟩ := p
    rcases List.mem_cons.mp h with h1 | h2
    · exact ⟨k, now, le_refl k, h1⟩
    · obtain ⟨j, t, hj, hs⟩ := ih h2
      exact ⟨j, t, by omega, hs⟩

theorem genIds_nodup (k : Nat) (inputs : List (Event × Nat)) :
    (genIds k inputs).Nodup := by
  induction inputs generalizing k with
  | nil => exact List.nodup_nil
  | cons p rest ih =>
    obtain ⟨q, now⟩ := p
    refine List.nodup_cons.mpr ⟨?_, ih (k + 1)⟩
    intro hmem
    obtain ⟨j, t, hj, hs⟩ := mem_genIds hmem
    have := genEventId_inj hs
    omega

/-- Running `SaveEvent` over inputs with empty supplied ids appends
exactly the generated ids. -/
theorem saveAll_genIds (inputs : List (Event × Nat)) :
    ∀ (m : MemoryStorage) idx, m.eventIndex = some idx →
    (∀ p ∈ inputs, p.1.id = []) →
    ∃ m', saveAll m inputs = some m' ∧
      m'.events.map Event.id = m.events.map Event.id ++ genIds m.events.length inputs := by
  induction inputs with
  | nil => exact fun m idx _ _ => ⟨m, rfl, by simp [genIds]⟩
  | cons p rest ih =>
    intro m idx hidx hempty
    obtain ⟨ev, now⟩ := p
    have hev : ev.id = [] := hempty (ev, now) (by simp)
    have hsave : m.SaveEvent ev now
        = some { m with
            events := m.events ++ [{ ev with id := genEventId m.events.length now }],
            eventIndex := some (mapSet idx (genEventId m.events.length now)
              m.events.length) } := by
      unfold MemoryStorage.SaveEvent
      rw [hidx]
      simp [hev]
    obtain ⟨m', hm', hids⟩ := ih
      { m with
        events := m.events ++ [{ ev with id := genEventId m.events.length now }],
        eventIndex := some (mapSet idx (genEventId m.events.length now)
          m.events.length) }
      (mapSet idx (genEventId m.events.length now) m.events.length) rfl
      (fun q hq => hempty q (by simp [hq]))
    refine ⟨m', ?_, ?_⟩
    · unfold saveAll
      rw [hsave]
      exact hm'
    · rw [hids]
      simp [genIds, List.map_append]

/-- C1 counterexample: two `SaveEvent` calls that both supply the non-empty
id "dup" store two records with the same id, so the stored id is not
distinct from the id of every other stored event record. -/
theorem saveEvent_duplicate_supplied_ids :
    saveAll NewMemoryStorage [(dupEvent, 0), (dupEvent, 1)]
      = some { events := [dupEvent, dupEvent], detections := [],
               eventIndex := some [(str "dup", 1)], detectionIndex := some [] } ∧
    ¬ (([dupEvent, dupEvent].map Event.id).Nodup) := by
  constructor
  · decide
  · decide

/-- C1 amended: every save appends one record whose stored id is non-empty
(the generated id combines the pre-append length with the time-based
suffix when the caller supplied an empty id), and in a storage populated
entirely through saves with empty supplied ids the stored ids are pairwise
distinct. -/
theorem saveEvent_id_spec (inputs : List (Event × Nat))
    (hempty : ∀ p ∈ inputs, p.1.id = []) :
    (∀ (m : MemoryStorage) (ev : Event) (now : Nat) (m' : MemoryStorage),
      m.SaveEvent ev now = some m' →
      ∃ e', m'.events = m.events ++ [e'] ∧ e'.id ≠ []) ∧
    (∃ m', saveAll NewMemoryStorage inputs = some m' ∧
      (∀ e ∈ m'.events, e.id ≠ []) ∧
      (m'.events.map Event.id).Nodup) := by
  constructor
  · intro m ev now m' hsave
    unfold MemoryStorage.SaveEvent at hsave
    rcases hidx : m.eventIndex with _ | idx <;> rw [hidx] at hsave
    · exact absurd hsave (by simp)
    · by_cases hid : ev.id = []
      · refine ⟨{ ev with id := genEventId m.events.length now }, ?_, ?_⟩
        · simp [hid] at hsave
          rw [← hsave]
        · exact genEventId_ne_nil m.events.length now
      · refine ⟨ev, ?_, hid⟩
        simp [hid] at hsave
        rw [← hsave]
  · obtain ⟨m', hm', hids⟩ := saveAll_genIds inputs NewMemoryStorage [] rfl hempty
    have hnil : NewMemoryStorage.events.map Event.id = [] := rfl
    refine ⟨m', hm', ?_, ?_⟩
    · intro e he
      have hmem : e.id ∈ m'.events.map Event.id := List.mem_map_of_mem Event.id he
      rw [hids, hnil, List.nil_append] at hmem
      obtain ⟨j, t, _, hs⟩ := mem_genIds hmem
      rw [hs]
      exact genEventId_ne_nil j t
    · rw [hids, hnil, List.nil_append]
      exact genIds_nodup _ inputs

/-- C1 witness: two saves with empty supplied ids at the same timestamp
still get distinct non-empty ids. -/
theorem saveEvent_id_spec_witness :
    ∃ m', saveAll NewMemoryStorage [(evZero, 5), (evZero, 5)] = some m' ∧
      (∀ e ∈ m'.events, e.id ≠ []) ∧
      (m'.events.map Event.id).Nodup :=
  (saveEvent_id_spec [(evZero, 5), (evZero, 5)] (by decide)).2

/-- C2 counterexample: with one configured source, the statistics reporter
is a worker `Run` launches that is not covered by the wait group `Run`
blocks on, so `Run` does not return "only once every worker it launched
has exited". -/
theorem run_not_all_workers_waited :
    ((Engine.runWorkers 1).all (fun w => w.inWaitGroup)) = false := by decide

/-- C2 amended: `Run` waits for every source worker and for the pipeline
consumer — every worker that reads from or writes to the event queue is in
the wait group, so none is left using the closed queue after `Run`
returns — but the statistics reporter is launched outside the wait group
and is not awaited (it exits on its own cancellation signal). -/
theorem run_wait_spec (n : Nat) :
    (∀ w ∈ Engine.runWorkers n, w.usesEventQueue = true → w.inWaitGroup = true) ∧
    (∀ i < n, (⟨.sourceWorker i, true, true⟩ : LaunchedWorker) ∈ Engine.runWorkers n) ∧
    (⟨.pipelineConsumer, true, true⟩ : LaunchedWorker) ∈ Engine.runWorkers n ∧
    (⟨.statsReporter, false, false⟩ : LaunchedWorker) ∈ Engine.runWorkers n := by
  refine ⟨?_, ?_, ?_, ?_⟩
  · intro w hw
    unfold Engine.runWorkers at hw
    rcases List.mem_cons.mp hw with h1 | h2
    · subst h1
      intro h
      simp at h
    · rcases List.mem_append.mp h2 with h3 | h4
      · obtain ⟨i, _, hwi⟩ := List.mem_map.mp h3
        rw [← hwi]
        intro _
        rfl
      · simp at h4
        rw [h4]
        intro _
        rfl
  · intro i hi
    unfold Engine.runWorkers
    refine List.mem_cons_of_mem _ (List.mem_append_left _ ?_)
    exact List.mem_map.mpr ⟨i, List.mem_range.mpr hi, rfl⟩
  · unfold Engine.runWorkers
    exact List.mem_cons_of_mem _ (List.mem_append_right _ (by simp))
  · unfold Engine.runWorkers
    exact List.mem_cons_self _ _

/-- C2 witness: at one source, the consumer is waited for and the source
worker 0 is waited for. -/
theorem run_wait_spec_witness :
    (⟨.sourceWorker 0, true, true⟩ : LaunchedWorker) ∈ Engine.runWorkers 1 ∧
    (⟨.pipelineConsumer, true, true⟩ : LaunchedWorker) ∈ Engine.runWorkers 1 :=
  ⟨(run_wait_spec 1).2.1 0 (by omega), (run_wait_spec 1).2.2.1⟩

/-- Closed form of the enforcement loop: it appends one enforce call per
enforcer, leaves both save-call logs and the two pipeline counters alone,
and adds the number of succeeding enforcers to exactly one action counter,
chosen by the dry-run flag. -/
theorem runEnforcers_eq (cfg : EngineConfig) (enforcers : List EnforcerBehavior)
    (result : DetectionResult) (st : EngineState) :
    Engine.runEnforcers cfg enforcers result st =
      { st with
        stats := { st.stats with
          actionsDryRun := st.stats.actionsDryRun +
            (if cfg.dryRun then
              enforcers.countP (fun enf => (enf result cfg.dryRun).isNone) else 0),
          actionsLive := st.stats.actionsLive +
            (if cfg.dryRun then 0 else
              enforcers.countP (fun enf => (enf result cfg.dryRun).isNone)) },
        enforceCalls := st.enforceCalls
          ++ enforcers.map (fun _ => (result, cfg.dryRun)) } := by
  obtain ⟨dr⟩ := cfg
  induction enforcers generalizing st with
  | nil => simp [Engine.runEnforcers]
  | cons enf rest ih =>
    show Engine.runEnforcers ⟨dr⟩ rest result (Engine.enforceStep ⟨dr⟩ result st enf) = _
    rw [ih]
    simp only [Engine.enforceStep]
    cases dr
    · rcases h : enf result false with _ | e <;>
        simp [h, List.countP_cons, EngineState.mk.injEq, Statistics.mk.injEq]
      rw [Nat.add_assoc, Nat.add_comm 1]
    · rcases h : enf result true with _ | e <;>
        simp [h, List.countP_cons, EngineState.mk.injEq, Statistics.mk.injEq]
      rw [Nat.add_assoc, Nat.add_comm 1]

/-- `processDetectionResult` never touches the event-save log. -/
theorem processDetectionResult_eventSaveCalls (cfg : EngineConfig)
    (enforcers : List EnforcerBehavior) (sb : StorageBehavior) (st : EngineState)
    (result : DetectionResult) :
    (Engine.processDetectionResult cfg enforcers sb st result).1.eventSaveCalls
      = st.eventSaveCalls := by
  unfold Engine.processDetectionResult
  by_cases ht : result.isThreat <;> simp [ht, runEnforcers_eq]

/-- Neither does the fold of it over a result list. -/
theorem foldl_processDetectionResult_eventSaveCalls (cfg : EngineConfig)
    (enforcers : List EnforcerBehavior) (sb : StorageBehavior)
    (results : List DetectionResult) :
    ∀ st : EngineState,
      (results.foldl
        (fun st r => (Engine.processDetectionResult cfg enforcers sb st r).1)
        st).eventSaveCalls = st.eventSaveCalls := by
  induction results with
  | nil => exact fun _ => rfl
  | cons r rest ih =>
    intro st
    rw [List.foldl_cons, ih, processDetectionResult_eventSaveCalls]

/-- `processEvent` unfolded: bump the processed counter and log the event
save, then fold result processing over the detector output on the enriched
event; the returned error is nil. -/
theorem processEvent_unfold (cfg : EngineConfig) (stages : EngineStages)
    (sb : StorageBehavior) (st : EngineState) (ev : Event) :
    Engine.processEvent cfg stages sb st ev =
      ((Engine.detectAll stages.detectors (Engine.enrichEvent stages.enrichers ev)).foldl
        (fun st r => (Engine.processDetectionResult cfg stages.enforcers sb st r).1)
        { st with
          stats := { st.stats with certsProcessed := st.stats.certsProcessed + 1 },
          eventSaveCalls := st.eventSaveCalls ++ [(ev, sb.saveEventErr ev)] },
       none) := rfl

/-- C4: a detection result is saved to storage unconditionally; when its
is-threat flag is false no enforcer is invoked and the threats-found
counter is untouched; and when the detectors produce no results the whole
pipeline pass makes no enforce call and leaves the threat counter
unchanged. -/
theorem processDetectionResult_spec (cfg : EngineConfig)
    (enforcers : List EnforcerBehavior) (sb : StorageBehavior) (st : EngineState)
    (result : DetectionResult) (stages : EngineStages) (ev : Event) :
    ((Engine.processDetectionResult cfg enforcers sb st result).1.detectionSaveCalls.map
        Prod.fst = st.detectionSaveCalls.map Prod.fst ++ [result]) ∧
    (result.isThreat = false →
      (Engine.processDetectionResult cfg enforcers sb st result).1.enforceCalls
          = st.enforceCalls ∧
      (Engine.processDetectionResult cfg enforcers sb st result).1.stats.threatsFound
          = st.stats.threatsFound) ∧
    (Engine.detectAll stages.detectors (Engine.enrichEvent stages.enrichers ev) = [] →
      (Engine.processEvent cfg stages sb st ev).1.enforceCalls = st.enforceCalls ∧
      (Engine.processEvent cfg stages sb st ev).1.stats.threatsFound
          = st.stats.threatsFound) := by
  refine ⟨?_, ?_, ?_⟩
  · unfold Engine.processDetectionResult
    by_cases ht : result.isThreat <;> simp [ht, runEnforcers_eq]
  · intro ht
    unfold Engine.processDetectionResult
    simp [ht]
  · intro hempty
    rw [processEvent_unfold, hempty]
    exact ⟨rfl, rfl⟩

/-- C4 witness: a non-threat result and a detector-free pipeline pass at
concrete inputs. -/
theorem processDetectionResult_spec_witness :
    ((Engine.processDetectionResult ⟨false⟩ [] sbNil stZero resBenign).1.enforceCalls
        = stZero.enforceCalls ∧
      (Engine.processDetectionResult ⟨false⟩ [] sbNil stZero resBenign).1.stats.threatsFound
        = stZero.stats.threatsFound) ∧
    ((Engine.processEvent ⟨false⟩ ⟨[], [], []⟩ sbNil stZero evZero).1.enforceCalls
        = stZero.enforceCalls ∧
      (Engine.processEvent ⟨false⟩ ⟨[], [], []⟩ sbNil stZero evZero).1.stats.threatsFound
        = stZero.stats.threatsFound) :=
  ⟨(processDetectionResult_spec ⟨false⟩ [] sbNil stZero resBenign ⟨[], [], []⟩
      evZero).2.1 rfl,
   (processDetectionResult_spec ⟨false⟩ [] sbNil stZero resBenign ⟨[], [], []⟩
      evZero).2.2 rfl⟩

/-- C5: for a threat result, each succeeding enforcer adds one to exactly
the action counter selected by the global dry-run flag, and a failing
enforcer adds to neither: the selected counter grows by the number of
succeeding enforcers and the other counter is unchanged. -/
theorem enforcement_counter_spec (cfg : EngineConfig)
    (enforcers : List EnforcerBehavior) (sb : StorageBehavior) (st : EngineState)
    (result : DetectionResult) (hthreat : result.isThreat = true) :
    (Engine.processDetectionResult cfg enforcers sb st result).1.stats.actionsDryRun
      = st.stats.actionsDryRun +
        (if cfg.dryRun then
          enforcers.countP (fun enf => (enf result cfg.dryRun).isNone) else 0) ∧
    (Engine.processDetectionResult cfg enforcers sb st result).1.stats.actionsLive
      = st.stats.actionsLive +
        (if cfg.dryRun then 0 else
          enforcers.countP (fun enf => (enf result cfg.dryRun).isNone)) := by
  unfold Engine.processDetectionResult
  simp [hthreat, runEnforcers_eq]

/-- C5 witness: with dry-run on, one succeeding and one failing enforcer
give one dry-run action and zero live actions. -/
theorem enforcement_counter_spec_witness :
    (Engine.processDetectionResult ⟨true⟩
        [fun _ _ => none, fun _ _ => some (str "smtp down")]
        sbNil stZero resThreat).1.stats.actionsDryRun = 1 ∧
    (Engine.processDetectionResult ⟨true⟩
        [fun _ _ => none, fun _ _ => some (str "smtp down")]
        sbNil stZero resThreat).1.stats.actionsLive = 0 :=
  ⟨((enforcement_counter_spec ⟨true⟩
      [fun _ _ => none, fun _ _ => some (str "smtp down")]
      sbNil stZero resThreat rfl).1).trans (by decide),
   ((enforcement_counter_spec ⟨true⟩
      [fun _ _ => none, fun _ _ => some (str "smtp down")]
      sbNil stZero resThreat rfl).2).trans (by decide)⟩

/-- What of the engine state the storage's error answers cannot influence. -/
def EngineState.Agrees (st st' : EngineState) : Prop :=
  st.stats = st'.stats ∧ st.enforceCalls = st'.enforceCalls ∧
  st.eventSaveCalls.map Prod.fst = st'.eventSaveCalls.map Prod.fst ∧
  st.detectionSaveCalls.map Prod.fst = st'.detectionSaveCalls.map Prod.fst

theorem agrees_processDetectionResult (cfg : EngineConfig)
    (enforcers : List EnforcerBehavior) (sb sb' : StorageBehavior)
    {st st' : EngineState} (h : EngineState.Agrees st st') (result : DetectionResult) :
    EngineState.Agrees (Engine.processDetectionResult cfg enforcers sb st result).1
      (Engine.processDetectionResult cfg enforcers sb' st' result).1 := by
  obtain ⟨h1, h2, h3, h4⟩ := h
  unfold Engine.processDetectionResult
  by_cases ht : result.isThreat <;>
    · simp only [ht, Bool.not_true, Bool.not_false, if_true, if_false,
        Bool.false_eq_true, runEnforcers_eq]
      exact ⟨by simp [h1], by simp [h2], by simpa using h3, by simp [h4]⟩

theorem agrees_foldl (cfg : EngineConfig) (enforcers : List EnforcerBehavior)
    (sb sb' : StorageBehavior) (results : List DetectionResult) :
    ∀ {st st' : EngineState}, EngineState.Agrees st st' →
    EngineState.Agrees
      (results.foldl
        (fun st r => (Engine.processDetectionResult cfg enforcers sb st r).1) st)
      (results.foldl
        (fun st r => (Engine.processDetectionResult cfg enforcers sb' st r).1) st') := by
  induction results with
  | nil => exact fun h => h
  | cons r rest ih =>
    intro st st' h
    exact ih (agrees_processDetectionResult cfg enforcers sb sb' h r)

/-- C7: `processEvent` returns nil on every input; a failing enricher's
(partially enriched) event still flows through the remaining enrichers; a
failing detector loses exactly its own results while every other detector
still contributes; and the storage's save errors influence nothing in the
pipeline pass beyond the logged answer itself. -/
theorem processEvent_error_isolation (cfg : EngineConfig) (stages : EngineStages)
    (sb sb' : StorageBehavior) (st : EngineState) (ev : Event) :
    (Engine.processEvent cfg stages sb st ev).2 = none ∧
    (∀ (es1 : List EnricherBehavior) (e0 : EnricherBehavior) es2,
      stages.enrichers = es1 ++ e0 :: es2 →
      (e0 (Engine.enrichEvent es1 ev)).2 ≠ none →
      Engine.enrichEvent stages.enrichers ev
        = Engine.enrichEvent es2 (e0 (Engine.enrichEvent es1 ev)).1) ∧
    (∀ (ds1 : List DetectorBehavior) (d0 : DetectorBehavior) ds2 (x : Event),
      stages.detectors = ds1 ++ d0 :: ds2 →
      (d0 x).2 ≠ none →
      Engine.detectAll stages.detectors x
        = Engine.detectAll ds1 x ++ Engine.detectAll ds2 x) ∧
    ((Engine.processEvent cfg stages sb st ev).1.stats
        = (Engine.processEvent cfg stages sb' st ev).1.stats ∧
      (Engine.processEvent cfg stages sb st ev).1.enforceCalls
        = (Engine.processEvent cfg stages sb' st ev).1.enforceCalls ∧
      (Engine.processEvent cfg stages sb st ev).1.eventSaveCalls.map Prod.fst
        = (Engine.processEvent cfg stages sb' st ev).1.eventSaveCalls.map Prod.fst ∧
      (Engine.processEvent cfg stages sb st ev).1.detectionSaveCalls.map Prod.fst
        = (Engine.processEvent cfg stages sb' st ev).1.detectionSaveCalls.map
            Prod.fst) := by
  refine ⟨rfl, ?_, ?_, ?_⟩
  · intro es1 e0 es2 hsplit _
    rw [hsplit]
    unfold Engine.enrichEvent
    rw [List.foldl_append, List.foldl_cons]
  · intro ds1 d0 ds2 x hsplit hfail
    rw [hsplit]
    unfold Engine.detectAll
    rw [List.map_append, List.map_cons, List.flatten_append, List.flatten_cons]
    rcases hd : d0 x with ⟨rs, _ | e⟩
    · rw [hd] at hfail
      simp at hfail
    · simp
  · have h0 : EngineState.Agrees
        { st with
          stats := { st.stats with certsProcessed := st.stats.certsProcessed + 1 },
          eventSaveCalls := st.eventSaveCalls ++ [(ev, sb.saveEventErr ev)] }
        { st with
          stats := { st.stats with certsProcessed := st.stats.certsProcessed + 1 },
          eventSaveCalls := st.eventSaveCalls ++ [(ev, sb'.saveEventErr ev)] } :=
      ⟨rfl, rfl, by simp, rfl⟩
    have h := agrees_foldl cfg stages.enforcers sb sb'
      (Engine.detectAll stages.detectors (Engine.enrichEvent stages.enrichers ev)) h0
    rw [processEvent_unfold, processEvent_unfold]
    exact h

/-- C7 witness: a one-enricher, one-detector pipeline where both fail: the
pass still returns nil and the failing detector contributes nothing. -/
theorem processEvent_error_isolation_witness :
    (Engine.processEvent ⟨false⟩
        ⟨[fun e => (e, some (str "dns timeout"))],
         [fun _ => ([], some (str "fetch failed"))], []⟩
        sbNil stZero evZero).2 = none ∧
    Engine.detectAll [fun _ => (([] : List DetectionResult), some (str "fetch failed"))]
        evZero
      = Engine.detectAll [] evZero ++ Engine.detectAll [] evZero :=
  ⟨(processEvent_error_isolation ⟨false⟩
      ⟨[fun e => (e, some (str "dns timeout"))],
       [fun _ => ([], some (str "fetch failed"))], []⟩
      sbNil sbNil stZero evZero).1,
   (processEvent_error_isolation ⟨false⟩
      ⟨[fun e => (e, some (str "dns timeout"))],
       [fun _ => ([], some (str "fetch failed"))], []⟩
      sbNil sbNil stZero evZero).2.2.1 [] (fun _ => ([], some (str "fetch failed"))) []
      evZero rfl (by simp)⟩

/-- C9: `SaveEvent` takes the event by value: the stored copy is the
caller's event with only the id replaced by the generated (non-empty) id,
while the caller's binding is untouched — so with no enrichers configured
the pipeline's detectors still see the original event with its empty id,
and the engine's save call logs the original event itself. -/
theorem saveEvent_by_value_spec (m : MemoryStorage) (ev : Event) (now : Nat)
    (hid : ev.id = []) (hm : m.eventIndex ≠ none) :
    (∃ m', m.SaveEvent ev now = some m' ∧
      m'.events = m.events ++ [{ ev with id := genEventId m.events.length now }]) ∧
    genEventId m.events.length now ≠ [] ∧
    (∀ (cfg : EngineConfig) (stages : EngineStages) (sb : StorageBehavior)
        (st : EngineState), stages.enrichers = [] →
      Engine.enrichEvent stages.enrichers ev = ev ∧
      (Engine.processEvent cfg stages sb st ev).1.eventSaveCalls
        = st.eventSaveCalls ++ [(ev, sb.saveEventErr ev)]) := by
  refine ⟨?_, genEventId_ne_nil _ _, ?_⟩
  · rcases hidx : m.eventIndex with _ | idx
    · exact absurd hidx hm
    · have hsave : m.SaveEvent ev now = some { m with
          events := m.events ++ [{ ev with id := genEventId m.events.length now }],
          eventIndex := some (mapSet idx (genEventId m.events.length now)
            m.events.length) } := by
        unfold MemoryStorage.SaveEvent
        rw [hidx]
        simp [hid]
      exact ⟨_, hsave, rfl⟩
  · intro cfg stages sb st hes
    refine ⟨by rw [hes]; rfl, ?_⟩
    rw [processEvent_unfold, foldl_processDetectionResult_eventSaveCalls]

/-- C9 witness: saving the empty-id event into the fresh storage stores a
copy carrying the generated id while the event value itself is unchanged. -/
theorem saveEvent_by_value_spec_witness :
    ∃ m', NewMemoryStorage.SaveEvent evZero 7 = some m' ∧
      m'.events = NewMemoryStorage.events
        ++ [{ evZero with id := genEventId NewMemoryStorage.events.length 7 }] :=
  (saveEvent_by_value_spec NewMemoryStorage evZero 7 rfl (by decide)).1

end OpenBPL
